import Mathlib

/-
Shallow embedding of moby.py (siebz0r/moby): the environment-execution
engine consisting of run_command, pull, push, run_env and the main driver.

External docker-client calls (exec_create/exec_start/exec_inspect,
get_archive, put_archive, reading local files into a tar archive) are
modelled by an oracle `World`; every observable action the code performs
is recorded in a trace of `Event`s, and Python exceptions (SystemExit on
a nonzero exit code, tarfile/IO errors during transfers) become an
`Except MobyError` result that every caller threads through unchanged,
which is the translation of an uncaught exception unwinding the stack.
-/

namespace Moby

/-- Errors that can unwind a run: `SystemExit(exit_code)` raised by
run_command at line 188 of moby.py, and any tarfile/IO exception raised
during a transfer (not raised explicitly in the source; it propagates
from the tar/docker library calls). -/
inductive MobyError where
  | abnormalExit (code : Int)
  | transferError
deriving DecidableEq, Repr

/-- Observable actions of the engine, in the order the code performs
them.  `exec cmd silent` is one remote command execution
(exec_create + exec_start + exec_inspect); `fetch` is a
client.get_archive call; `extract` is archive.extractall after a fetch;
`put dest entries` is client.put_archive of an archive holding `entries`;
`stop` is client.stop from stop_container; `log` is a logger.info call. -/
inductive Event where
  | log (msg : String)
  | exec (cmd : String) (silent : Bool)
  | fetch (path : String)
  | extract (path : String)
  | put (dest : String) (entries : List String)
  | stop
deriving DecidableEq, Repr

/-- The docker-side oracle.  `exec c` gives the decoded output chunks the
stream yields and the exit code exec_inspect reports for command `c`;
`fetchOk p` says whether get_archive + tar decode + extractall succeeds
for remote path `p`; `readOk p` says whether archive.add succeeds for
local path `p`; `putOk` says whether client.put_archive succeeds. -/
structure World where
  exec : String → List String × Int
  fetchOk : String → Bool
  readOk : String → Bool
  putOk : Bool

/-- ANSI terminator, `END` at line 30 of moby.py. -/
def END : String := "\x1b[0m"

/-- Bold formatting, `BOLD.format(s)` at line 31 of moby.py. -/
def boldFmt (s : String) : String := "\x1b[1m" ++ s ++ END

/-- Python str.strip(): drop whitespace from both ends.  Used by
run_command at line 189 of moby.py on the accumulated output. -/
def pyStrip (s : String) : String :=
  String.mk ((((s.toList.dropWhile Char.isWhitespace).reverse).dropWhile
    Char.isWhitespace).reverse)

/-- Stripping only leading whitespace, defined from the spec's words for
comparison with what the code computes (the code itself calls Python
str.strip, i.e. `pyStrip`). -/
def specStripLeading (s : String) : String :=
  String.mk (s.toList.dropWhile Char.isWhitespace)

/-- Stripping only trailing whitespace, defined from the spec's words
("trailing whitespace stripped ... leading whitespace preserved") for
comparison with what the code computes. -/
def specStripTrailing (s : String) : String :=
  String.mk ((s.toList.reverse.dropWhile Char.isWhitespace).reverse)

/-- Python str.startswith, on the character lists of the strings. -/
def strStartsWith (s p : String) : Bool := p.toList.isPrefixOf s.toList

/-- Python str.endswith, on the character lists of the strings. -/
def strEndsWith (s p : String) : Bool :=
  p.toList.reverse.isPrefixOf s.toList.reverse

/-- posixpath.join for the two-argument case used at line 126 of
moby.py. -/
def posixJoin (a b : String) : String :=
  if strStartsWith b "/" then b
  else if a = "" ∨ strEndsWith a "/" then a ++ b
  else a ++ "/" ++ b

/-- Lines 125-126 of moby.py: a path starting with the separator is used
unchanged, otherwise it is joined to the remote working directory. -/
def resolvePath (cwd path : String) : String :=
  if strStartsWith path "/" then path else posixJoin cwd path

/-- Result of a phase that yields no value: the trace of events performed
and either success or the error unwinding the stack. -/
abbrev Res := List Event × Except MobyError Unit

/-- Sequencing of two phases inside one Python function body: if the
first raises, the second never runs and the error propagates as is. -/
def seqRun (a : Res) (b : Unit → Res) : Res :=
  match a with
  | (t, Except.error e) => (t, Except.error e)
  | (t, Except.ok _) => let r := b (); (t ++ r.1, r.2)

/-- run_command (lines 152-189 of moby.py): optional bold header log,
exec_create + exec_start (one `exec` event), per-chunk accumulation with
optional per-chunk log, then exec_inspect; a truthy (nonzero) ExitCode
raises SystemExit with that code, otherwise the accumulated text is
returned stripped. -/
def run_command (w : World) (command : String) (silent : Bool) :
    List Event × Except MobyError String :=
  let headerT : List Event :=
    if silent then []
    else [Event.log (boldFmt ("Running '" ++ command ++ "':\n"))]
  let out := w.exec command
  let chunkT : List Event := if silent then [] else out.1.map Event.log
  let trace := headerT ++ [Event.exec command silent] ++ chunkT
  if out.2 ≠ 0 then (trace, Except.error (MobyError.abnormalExit out.2))
  else (trace, Except.ok (pyStrip (String.join out.1)))

/-- Body of the per-path loop of pull (lines 124-130 of moby.py):
resolve the path, get_archive it, then decode and extractall; a tar/IO
failure anywhere in that is a TransferError. -/
def pullOne (w : World) (cwd path : String) : Res :=
  let p := resolvePath cwd path
  if w.fetchOk p then ([Event.fetch p, Event.extract p], Except.ok ())
  else ([Event.fetch p], Except.error MobyError.transferError)

/-- The per-path loop of pull: paths in listed order, aborting at the
first failure. -/
def pullFiles (w : World) (cwd : String) : List String → Res
  | [] => ([], Except.ok ())
  | p :: ps => seqRun (pullOne w cwd p) fun _ => pullFiles w cwd ps

/-- pull (lines 110-130 of moby.py): one silent pwd via run_command, then
fetch and extract each path. -/
def pull (w : World) (files : List String) : Res :=
  let c := run_command w "pwd" true
  match c.2 with
  | Except.error e => (c.1, Except.error e)
  | Except.ok cwd => let r := pullFiles w cwd files; (c.1 ++ r.1, r.2)

/-- The archive.add loop of push (lines 147-148 of moby.py): each path is
added to the in-memory archive exactly as given; an IO failure reading a
local path is a TransferError. Returns the archive entry list. -/
def addFiles (w : World) : List String → Except MobyError (List String)
  | [] => Except.ok []
  | p :: ps =>
    if w.readOk p then
      match addFiles w ps with
      | Except.error e => Except.error e
      | Except.ok es => Except.ok (p :: es)
    else Except.error MobyError.transferError

/-- push (lines 133-149 of moby.py): one silent pwd via run_command, one
in-memory archive holding every path as given, one put_archive of the
whole archive to the remote working directory. -/
def push (w : World) (files : List String) : Res :=
  let c := run_command w "pwd" true
  match c.2 with
  | Except.error e => (c.1, Except.error e)
  | Except.ok cwd =>
    match addFiles w files with
    | Except.error e => (c.1, Except.error e)
    | Except.ok entries =>
      if w.putOk then (c.1 ++ [Event.put cwd entries], Except.ok ())
      else (c.1 ++ [Event.put cwd entries],
        Except.error MobyError.transferError)

/-- The for-loop over env['run'] (lines 215-216 of moby.py): each command
in listed order through run_command with silent left at False, stopping
at the first raised error. -/
def runSeq (w : World) : List String → Res
  | [] => ([], Except.ok ())
  | c :: cs =>
    match run_command w c false with
    | (t, Except.error e) => (t, Except.error e)
    | (t, Except.ok _) => let r := runSeq w cs; (t ++ r.1, r.2)

/-- An environment dict (moby.yml spec node): the five recognised keys of
run_env, each optional because membership in the dict is tested.  An
absent key is `none`; a key bound to an empty list is `some []`. -/
inductive EnvSpec where
  | mk (before : Option EnvSpec) (pushF : Option (List String))
      (runF : Option (List String)) (pullF : Option (List String))
      (after : Option EnvSpec)

/-- Lines 212-213 of moby.py: push runs iff the key is present. -/
def pushPhase (w : World) : Option (List String) → Res
  | none => ([], Except.ok ())
  | some fs => push w fs

/-- Lines 218-219 of moby.py: pull runs iff the key is present. -/
def pullPhase (w : World) : Option (List String) → Res
  | none => ([], Except.ok ())
  | some fs => pull w fs

mutual

/-- run_env (lines 192-222 of moby.py): recurse into `before` if present,
push if present, run each command of env.get('run', []), pull if present,
recurse into `after` if present; any raised error aborts the rest. -/
def run_env (w : World) : EnvSpec → Res
  | EnvSpec.mk b pu ru pl af =>
    seqRun (runOpt w b) fun _ =>
    seqRun (pushPhase w pu) fun _ =>
    seqRun (runSeq w (ru.getD [])) fun _ =>
    seqRun (pullPhase w pl) fun _ =>
    runOpt w af

/-- The conditional recursion of run_env on an optional sub-spec
(lines 209-210 and 221-222 of moby.py). -/
def runOpt (w : World) : Option EnvSpec → Res
  | none => ([], Except.ok ())
  | some s => run_env w s

end

/-- The loaded moby.yml as main uses it: the envlist and the mapping from
environment names to their specs (config[env] at line 275 of moby.py). -/
structure Config where
  envlist : List String
  envs : String → EnvSpec

/-- The for-loop of main (lines 274-275 of moby.py): each named
environment in list order, aborting at the first error. -/
def runEnvList (w : World) (cfg : Config) : List String → Res
  | [] => ([], Except.ok ())
  | n :: ns => seqRun (run_env w (cfg.envs n)) fun _ => runEnvList w cfg ns

/-- stop_container (lines 248-257 of moby.py): a bold log line and
client.stop. -/
def stop_container : List Event :=
  [Event.log (boldFmt "Stopping container...\n"), Event.stop]

/-- The try/finally of main (lines 273-277 of moby.py): run the envlist;
whether it returns or raises, stop_container runs, and the error (if any)
then continues to unwind, terminating the process with its code. -/
def mainRun (w : World) (cfg : Config) : Res :=
  let r := runEnvList w cfg cfg.envlist
  (r.1 ++ stop_container, r.2)

/-- Commands executed non-silently, i.e. the run-phase commands: pull and
push only ever run the silent pwd query. -/
def userCmds (t : List Event) : List String :=
  t.filterMap fun e =>
    match e with
    | Event.exec c false => some c
    | _ => none

/-- Trace with the logging side effects erased. -/
def nonLog (t : List Event) : List Event :=
  t.filter fun e =>
    match e with
    | Event.log _ => false
    | _ => true

/-- Paths whose archive was extracted, in call order. -/
def extractPaths (t : List Event) : List String :=
  t.filterMap fun e =>
    match e with
    | Event.extract p => some p
    | _ => none

/-- All commands executed in a trace (silent or not), in order. -/
def execCmds (t : List Event) : List String :=
  t.filterMap fun e =>
    match e with
    | Event.exec c _ => some c
    | _ => none

/-- A docker-level call, with the logging-only data of an `Event`
erased: the remote API cannot tell a silent execution from a loud one,
and log lines never reach it. -/
inductive Action where
  | exec (cmd : String)
  | fetch (path : String)
  | extract (path : String)
  | put (dest : String) (entries : List String)
  | stop
deriving DecidableEq, Repr

/-- The docker-level calls of a trace: logs dropped, the silent flag
forgotten. -/
def actions (t : List Event) : List Action :=
  t.filterMap fun e =>
    match e with
    | Event.log _ => none
    | Event.exec c _ => some (Action.exec c)
    | Event.fetch p => some (Action.fetch p)
    | Event.extract p => some (Action.extract p)
    | Event.put d es => some (Action.put d es)
    | Event.stop => some Action.stop

/-- Paths passed to get_archive, in call order. -/
def fetchPaths (t : List Event) : List String :=
  t.filterMap fun e =>
    match e with
    | Event.fetch p => some p
    | _ => none

/-- put_archive calls (destination directory and archive entries), in
call order. -/
def putCalls (t : List Event) : List (String × List String) :=
  t.filterMap fun e =>
    match e with
    | Event.put d es => some (d, es)
    | _ => none

/-- Number of put_archive calls in a trace. -/
def countPut (t : List Event) : Nat := (putCalls t).length

/-- Number of get_archive calls in a trace. -/
def countFetch (t : List Event) : Nat := (fetchPaths t).length

/-- Number of extractall calls in a trace. -/
def countExtract (t : List Event) : Nat := (extractPaths t).length

/-- The stripped remote working directory a silent pwd returns in world
`w`. -/
def pwdOf (w : World) : String := pyStrip (String.join (w.exec "pwd").1)

mutual

/-- The claim C1 flattening of the run-phase commands of a spec tree:
before subtree first, then this node's run list, then the after
subtree. -/
def flatRunCmds : EnvSpec → List String
  | EnvSpec.mk b _ ru _ af => flatOpt b ++ ru.getD [] ++ flatOpt af

/-- Flattening of an optional sub-spec. -/
def flatOpt : Option EnvSpec → List String
  | none => []
  | some s => flatRunCmds s

end

/-- A world where every command exits 0 with no output and every transfer
succeeds. -/
def wOk : World :=
  { exec := fun _ => ([], 0), fetchOk := fun _ => true,
    readOk := fun _ => true, putOk := true }

/-- A world where every command streams the single chunk "/cwd\n" and
exits 0, so the working-directory query resolves to "/cwd"; all transfers
succeed. -/
def wCwd : World :=
  { exec := fun _ => (["/cwd\n"], 0), fetchOk := fun _ => true,
    readOk := fun _ => true, putOk := true }

/-- A world where the command "boom" exits with code 2 and every other
command exits 0; all transfers succeed. -/
def wFail : World :=
  { exec := fun c => if c = "boom" then ([], 2) else ([], 0),
    fetchOk := fun _ => true, readOk := fun _ => true, putOk := true }

/-- A world where every command streams the single chunk " a" (leading
whitespace, no trailing whitespace) and exits 0. -/
def wLead : World :=
  { exec := fun _ => ([" a"], 0), fetchOk := fun _ => true,
    readOk := fun _ => true, putOk := true }

/-- A spec whose run list is the single failing command "boom". -/
def specBoom : EnvSpec := EnvSpec.mk none none (some ["boom"]) none none

/-- A config whose every environment is `specBoom`. -/
def cfgBoom : Config := { envlist := ["first", "second"], envs := fun _ => specBoom }

/-- A nested spec: before runs "a", this level runs "b", after runs
"c". -/
def specNested : EnvSpec :=
  EnvSpec.mk (some (EnvSpec.mk none none (some ["a"]) none none)) none
    (some ["b"]) none (some (EnvSpec.mk none none (some ["c"]) none none))

theorem seqRun_fst_error (t : List Event) (e : MobyError) (b : Unit → Res) :
    seqRun (t, Except.error e) b = (t, Except.error e) := rfl

theorem seqRun_fst_ok (t : List Event) (b : Unit → Res) :
    seqRun (t, Except.ok ()) b = (t ++ (b ()).1, (b ()).2) := rfl

theorem seqRun_of_error (a : Res) (b : Unit → Res) (e : MobyError)
    (h : a.2 = Except.error e) : seqRun a b = (a.1, Except.error e) := by
  rcases a with ⟨t, r⟩
  cases r with
  | error e2 =>
    cases h
    rfl
  | ok u => exact absurd h (by simp)

theorem seqRun_of_ok (a : Res) (b : Unit → Res)
    (h : a.2 = Except.ok ()) : seqRun a b = (a.1 ++ (b ()).1, (b ()).2) := by
  rcases a with ⟨t, r⟩
  cases r with
  | error e2 => exact absurd h (by simp)
  | ok u =>
    cases u
    rfl

theorem seqRun_ok_split (a : Res) (b : Unit → Res)
    (h : (seqRun a b).2 = Except.ok ()) :
    a.2 = Except.ok () ∧ (b ()).2 = Except.ok ()
      ∧ (seqRun a b).1 = a.1 ++ (b ()).1 := by
  rcases a with ⟨t, r⟩
  cases r with
  | error e =>
    rw [seqRun_fst_error] at h
    exact absurd h (by simp)
  | ok u =>
    cases u
    rw [seqRun_fst_ok] at h ⊢
    exact ⟨rfl, h, rfl⟩

theorem run_command_fst (w : World) (c : String) (s : Bool) :
    (run_command w c s).1 =
      (if s then ([] : List Event)
       else [Event.log (boldFmt ("Running '" ++ c ++ "':\n"))]) ++
      [Event.exec c s] ++
      (if s then ([] : List Event) else (w.exec c).1.map Event.log) := by
  by_cases h : (w.exec c).2 ≠ 0 <;> simp [run_command, h]

theorem run_command_snd_ok (w : World) (c : String) (s : Bool)
    (h : (w.exec c).2 = 0) :
    (run_command w c s).2 = Except.ok (pyStrip (String.join (w.exec c).1)) := by
  simp [run_command, h]

theorem run_command_snd_error (w : World) (c : String) (s : Bool)
    (h : (w.exec c).2 ≠ 0) :
    (run_command w c s).2 =
      Except.error (MobyError.abnormalExit (w.exec c).2) := by
  simp [run_command, h]

theorem run_command_ok_val (w : World) (c : String) (s : Bool) (v : String)
    (h : (run_command w c s).2 = Except.ok v) :
    v = pyStrip (String.join (w.exec c).1) ∧ (w.exec c).2 = 0 := by
  by_cases h0 : (w.exec c).2 = 0
  · rw [run_command_snd_ok w c s h0] at h
    exact ⟨(Except.ok.injEq _ _ ▸ h).symm, h0⟩
  · rw [run_command_snd_error w c s h0] at h
    exact absurd h (by simp)

theorem filterMap_map_log {α : Type} (f : Event → Option α)
    (hf : ∀ m, f (Event.log m) = none) (l : List String) :
    (l.map Event.log).filterMap f = [] := by
  induction l with
  | nil => rfl
  | cons x xs ih =>
    rw [List.map_cons, List.filterMap_cons, hf x]
    exact ih

theorem userCmds_append (s t : List Event) :
    userCmds (s ++ t) = userCmds s ++ userCmds t := by
  simp [userCmds]

theorem execCmds_append (s t : List Event) :
    execCmds (s ++ t) = execCmds s ++ execCmds t := by
  simp [execCmds]

theorem actions_append (s t : List Event) :
    actions (s ++ t) = actions s ++ actions t := by
  simp [actions]

theorem fetchPaths_append (s t : List Event) :
    fetchPaths (s ++ t) = fetchPaths s ++ fetchPaths t := by
  simp [fetchPaths]

theorem extractPaths_append (s t : List Event) :
    extractPaths (s ++ t) = extractPaths s ++ extractPaths t := by
  simp [extractPaths]

theorem putCalls_append (s t : List Event) :
    putCalls (s ++ t) = putCalls s ++ putCalls t := by
  simp [putCalls]

theorem run_command_userCmds_silent (w : World) (c : String) :
    userCmds (run_command w c true).1 = [] := by
  rw [run_command_fst]
  simp [userCmds]

theorem run_command_userCmds_loud (w : World) (c : String) :
    userCmds (run_command w c false).1 = [c] := by
  rw [run_command_fst]
  simp [userCmds, userCmds_append, filterMap_map_log]

theorem run_command_execCmds (w : World) (c : String) (s : Bool) :
    execCmds (run_command w c s).1 = [c] := by
  rw [run_command_fst]
  cases s <;> simp [execCmds, filterMap_map_log]

theorem run_command_actions (w : World) (c : String) (s : Bool) :
    actions (run_command w c s).1 = [Action.exec c] := by
  rw [run_command_fst]
  cases s <;> simp [actions, filterMap_map_log]

theorem run_command_fetchPaths (w : World) (c : String) (s : Bool) :
    fetchPaths (run_command w c s).1 = [] := by
  rw [run_command_fst]
  cases s <;> simp [fetchPaths, filterMap_map_log]

theorem run_command_extractPaths (w : World) (c : String) (s : Bool) :
    extractPaths (run_command w c s).1 = [] := by
  rw [run_command_fst]
  cases s <;> simp [extractPaths, filterMap_map_log]

theorem run_command_putCalls (w : World) (c : String) (s : Bool) :
    putCalls (run_command w c s).1 = [] := by
  rw [run_command_fst]
  cases s <;> simp [putCalls, filterMap_map_log]

theorem addFiles_ok (w : World) :
    ∀ (fs es : List String), addFiles w fs = Except.ok es → es = fs
  | [], es, h => by
    simp [addFiles] at h
    exact h
  | p :: ps, es, h => by
    by_cases hr : w.readOk p
    · simp only [addFiles, hr, if_true] at h
      cases hps : addFiles w ps with
      | error e =>
        rw [hps] at h
        exact absurd h (by simp)
      | ok es2 =>
        rw [hps] at h
        simp only [Except.ok.injEq] at h
        rw [← h, addFiles_ok w ps es2 hps]
    · simp [addFiles, hr] at h

theorem push_ok_eq (w : World) (fs : List String)
    (h : (push w fs).2 = Except.ok ()) :
    push w fs =
      ((run_command w "pwd" true).1 ++ [Event.put (pwdOf w) fs],
        Except.ok ()) := by
  rcases hc : run_command w "pwd" true with ⟨t, r⟩
  cases r with
  | error e =>
    rw [push, hc] at h
    exact absurd h (by simp)
  | ok cwd =>
    have hcwd : cwd = pwdOf w := by
      have := run_command_ok_val w "pwd" true cwd (by rw [hc])
      rw [this.1]
      rfl
    cases had : addFiles w fs with
    | error e =>
      rw [push, hc] at h
      simp only [had] at h
      exact absurd h (by simp)
    | ok es =>
      have hes : es = fs := addFiles_ok w fs es had
      by_cases hp : w.putOk
      · rw [push, hc]
        simp only [had, hp, if_true, hcwd, hes]
      · rw [push, hc] at h
        simp only [had, hp, if_false] at h
        exact absurd h (by simp)

theorem userCmds_snoc_put (t : List Event) (d : String) (es : List String)
    (h : userCmds t = []) : userCmds (t ++ [Event.put d es]) = [] := by
  rw [userCmds_append, h]
  rfl

theorem push_userCmds (w : World) (fs : List String) :
    userCmds (push w fs).1 = [] := by
  rcases hc : run_command w "pwd" true with ⟨t, r⟩
  have ht : userCmds t = [] := by
    have := run_command_userCmds_silent w "pwd"
    rw [hc] at this
    exact this
  cases r <;> rw [push, hc]
  · exact ht
  case ok cwd =>
    cases addFiles w fs
    · exact ht
    case ok es =>
      cases w.putOk
      · exact userCmds_snoc_put t cwd es ht
      · exact userCmds_snoc_put t cwd es ht

theorem pullOne_ok_eq (w : World) (cwd p : String)
    (h : (pullOne w cwd p).2 = Except.ok ()) :
    pullOne w cwd p =
      ([Event.fetch (resolvePath cwd p), Event.extract (resolvePath cwd p)],
        Except.ok ()) := by
  by_cases hf : w.fetchOk (resolvePath cwd p)
  · simp [pullOne, hf]
  · simp [pullOne, hf] at h

theorem pullOne_no_cmd (w : World) (cwd p : String) :
    userCmds (pullOne w cwd p).1 = [] ∧ execCmds (pullOne w cwd p).1 = []
      ∧ putCalls (pullOne w cwd p).1 = [] := by
  by_cases hf : w.fetchOk (resolvePath cwd p) <;>
    simp [pullOne, hf, userCmds, execCmds, putCalls]

theorem pullFiles_no_cmd (w : World) (cwd : String) :
    ∀ fs : List String,
      userCmds (pullFiles w cwd fs).1 = []
        ∧ execCmds (pullFiles w cwd fs).1 = []
        ∧ putCalls (pullFiles w cwd fs).1 = []
  | [] => by simp [pullFiles, userCmds, execCmds, putCalls]
  | p :: ps => by
    have h1 := pullOne_no_cmd w cwd p
    have ih := pullFiles_no_cmd w cwd ps
    rcases hpo : pullOne w cwd p with ⟨t, r⟩
    rw [hpo] at h1
    cases r with
    | error e =>
      rw [pullFiles, hpo, seqRun_fst_error]
      exact h1
    | ok u =>
      cases u
      rw [pullFiles, hpo, seqRun_fst_ok]
      simp only [userCmds_append, execCmds_append, putCalls_append,
        h1.1, h1.2.1, h1.2.2, ih.1, ih.2.1, ih.2.2]
      simp

theorem pullFiles_ok_paths (w : World) (cwd : String) :
    ∀ fs : List String, (pullFiles w cwd fs).2 = Except.ok () →
      fetchPaths (pullFiles w cwd fs).1 = fs.map (resolvePath cwd)
        ∧ extractPaths (pullFiles w cwd fs).1 = fs.map (resolvePath cwd)
  | [], _ => by simp [pullFiles, fetchPaths, extractPaths]
  | p :: ps, h => by
    rw [pullFiles] at h ⊢
    obtain ⟨h1, h2, h3⟩ := seqRun_ok_split _ _ h
    have he := pullOne_ok_eq w cwd p h1
    have ih := pullFiles_ok_paths w cwd ps h2
    rw [seqRun_of_ok _ _ h1]
    simp only [fetchPaths_append, extractPaths_append, he, ih.1, ih.2,
      List.map_cons]
    simp [fetchPaths, extractPaths]

theorem pull_ok_eq (w : World) (fs : List String)
    (h : (pull w fs).2 = Except.ok ()) :
    pull w fs =
      ((run_command w "pwd" true).1 ++ (pullFiles w (pwdOf w) fs).1,
        Except.ok ())
      ∧ (pullFiles w (pwdOf w) fs).2 = Except.ok () := by
  rcases hc : run_command w "pwd" true with ⟨t, r⟩
  cases r with
  | error e =>
    rw [pull, hc] at h
    exact absurd h (by simp)
  | ok cwd =>
    have hcwd : cwd = pwdOf w := by
      have := run_command_ok_val w "pwd" true cwd (by rw [hc])
      rw [this.1]
      rfl
    rw [pull, hc] at h ⊢
    simp only [hcwd] at h ⊢
    exact ⟨by rw [← h], h⟩

theorem pull_userCmds (w : World) (fs : List String) :
    userCmds (pull w fs).1 = [] := by
  rcases hc : run_command w "pwd" true with ⟨t, r⟩
  have ht : userCmds t = [] := by
    have := run_command_userCmds_silent w "pwd"
    rw [hc] at this
    exact this
  cases r <;> rw [pull, hc]
  · exact ht
  · simp [userCmds_append, ht, (pullFiles_no_cmd w _ fs).1]

theorem runSeq_userCmds_ok (w : World) :
    ∀ cs : List String, (runSeq w cs).2 = Except.ok () →
      userCmds (runSeq w cs).1 = cs
  | [], _ => rfl
  | c :: cs, h => by
    rcases hc : run_command w c false with ⟨t, r⟩
    have ht : userCmds t = [c] := by
      have := run_command_userCmds_loud w c
      rw [hc] at this
      exact this
    cases r with
    | error e =>
      rw [runSeq, hc] at h
      exact absurd h (by simp)
    | ok v =>
      rw [runSeq, hc] at h ⊢
      simp only at h ⊢
      rw [userCmds_append, ht, runSeq_userCmds_ok w cs h]
      rfl

theorem runSeq_execCmds_ok (w : World) :
    ∀ cs : List String, (runSeq w cs).2 = Except.ok () →
      execCmds (runSeq w cs).1 = cs
  | [], _ => rfl
  | c :: cs, h => by
    rcases hc : run_command w c false with ⟨t, r⟩
    have ht : execCmds t = [c] := by
      have := run_command_execCmds w c false
      rw [hc] at this
      exact this
    cases r with
    | error e =>
      rw [runSeq, hc] at h
      exact absurd h (by simp)
    | ok v =>
      rw [runSeq, hc] at h ⊢
      simp only at h ⊢
      rw [execCmds_append, ht, runSeq_execCmds_ok w cs h]
      rfl

theorem runSeq_no_transfer (w : World) :
    ∀ cs : List String,
      fetchPaths (runSeq w cs).1 = [] ∧ extractPaths (runSeq w cs).1 = []
        ∧ putCalls (runSeq w cs).1 = []
  | [] => by simp [runSeq, fetchPaths, extractPaths, putCalls]
  | c :: cs => by
    rcases hc : run_command w c false with ⟨t, r⟩
    have h1 : fetchPaths t = [] := by
      have := run_command_fetchPaths w c false
      rw [hc] at this
      exact this
    have h2 : extractPaths t = [] := by
      have := run_command_extractPaths w c false
      rw [hc] at this
      exact this
    have h3 : putCalls t = [] := by
      have := run_command_putCalls w c false
      rw [hc] at this
      exact this
    have ih := runSeq_no_transfer w cs
    cases r with
    | error e =>
      rw [runSeq, hc]
      exact ⟨h1, h2, h3⟩
    | ok v =>
      rw [runSeq, hc]
      simp only [fetchPaths_append, extractPaths_append, putCalls_append,
        h1, h2, h3, ih.1, ih.2.1, ih.2.2]
      simp

theorem run_env_unfold (w : World) (b : Option EnvSpec)
    (pu ru pl : Option (List String)) (af : Option EnvSpec) :
    run_env w (EnvSpec.mk b pu ru pl af) =
      seqRun (runOpt w b) fun _ =>
      seqRun (pushPhase w pu) fun _ =>
      seqRun (runSeq w (ru.getD [])) fun _ =>
      seqRun (pullPhase w pl) fun _ =>
      runOpt w af := rfl

theorem run_env_ok_split (w : World) (b : Option EnvSpec)
    (pu ru pl : Option (List String)) (af : Option EnvSpec)
    (h : (run_env w (EnvSpec.mk b pu ru pl af)).2 = Except.ok ()) :
    (runOpt w b).2 = Except.ok ()
      ∧ (pushPhase w pu).2 = Except.ok ()
      ∧ (runSeq w (ru.getD [])).2 = Except.ok ()
      ∧ (pullPhase w pl).2 = Except.ok ()
      ∧ (runOpt w af).2 = Except.ok ()
      ∧ (run_env w (EnvSpec.mk b pu ru pl af)).1 =
          (runOpt w b).1 ++ ((pushPhase w pu).1 ++
            ((runSeq w (ru.getD [])).1 ++ ((pullPhase w pl).1 ++
              (runOpt w af).1))) := by
  rw [run_env_unfold] at h
  obtain ⟨h1, h2, e1⟩ := seqRun_ok_split _ _ h
  obtain ⟨h3, h4, e2⟩ := seqRun_ok_split _ _ h2
  obtain ⟨h5, h6, e3⟩ := seqRun_ok_split _ _ h4
  obtain ⟨h7, h8, e4⟩ := seqRun_ok_split _ _ h6
  refine ⟨h1, h3, h5, h7, h8, ?_⟩
  rw [run_env_unfold, e1, e2, e3, e4]

mutual

theorem run_env_flat (w : World) :
    ∀ s : EnvSpec, (run_env w s).2 = Except.ok () →
      userCmds (run_env w s).1 = flatRunCmds s
  | EnvSpec.mk b pu ru pl af, h => by
    obtain ⟨h1, h2, h3, h4, h5, e⟩ := run_env_ok_split w b pu ru pl af h
    have hpu : userCmds (pushPhase w pu).1 = [] := by
      cases pu
      · rfl
      · exact push_userCmds w _
    have hpl : userCmds (pullPhase w pl).1 = [] := by
      cases pl
      · rfl
      · exact pull_userCmds w _
    rw [e, userCmds_append, userCmds_append, userCmds_append,
      userCmds_append, runOpt_flat w b h1, runOpt_flat w af h5,
      runSeq_userCmds_ok w _ h3, hpu, hpl]
    simp [flatRunCmds]

theorem runOpt_flat (w : World) :
    ∀ o : Option EnvSpec, (runOpt w o).2 = Except.ok () →
      userCmds (runOpt w o).1 = flatOpt o
  | none, _ => rfl
  | some s, h => run_env_flat w s h

end

theorem push_trace_ok (w : World) (fs : List String)
    (h : (push w fs).2 = Except.ok ()) :
    (push w fs).1 = (run_command w "pwd" true).1 ++ [Event.put (pwdOf w) fs] := by
  rw [push_ok_eq w fs h]

theorem push_execCmds_ok (w : World) (fs : List String)
    (h : (push w fs).2 = Except.ok ()) :
    execCmds (push w fs).1 = ["pwd"] := by
  rw [push_trace_ok w fs h, execCmds_append, run_command_execCmds]
  rfl

theorem push_putCalls_ok (w : World) (fs : List String)
    (h : (push w fs).2 = Except.ok ()) :
    putCalls (push w fs).1 = [(pwdOf w, fs)] := by
  rw [push_trace_ok w fs h, putCalls_append, run_command_putCalls]
  rfl

theorem pull_trace_ok (w : World) (fs : List String)
    (h : (pull w fs).2 = Except.ok ()) :
    (pull w fs).1 = (run_command w "pwd" true).1 ++ (pullFiles w (pwdOf w) fs).1
      ∧ (pullFiles w (pwdOf w) fs).2 = Except.ok () := by
  obtain ⟨he, hf⟩ := pull_ok_eq w fs h
  exact ⟨by rw [he], hf⟩

theorem pull_execCmds_ok (w : World) (fs : List String)
    (h : (pull w fs).2 = Except.ok ()) :
    execCmds (pull w fs).1 = ["pwd"] := by
  obtain ⟨he, _⟩ := pull_trace_ok w fs h
  rw [he, execCmds_append, run_command_execCmds,
    (pullFiles_no_cmd w (pwdOf w) fs).2.1]
  rfl

theorem pull_fetchPaths_ok (w : World) (fs : List String)
    (h : (pull w fs).2 = Except.ok ()) :
    fetchPaths (pull w fs).1 = fs.map (resolvePath (pwdOf w)) := by
  obtain ⟨he, hf⟩ := pull_trace_ok w fs h
  rw [he, fetchPaths_append, run_command_fetchPaths,
    (pullFiles_ok_paths w (pwdOf w) fs hf).1]
  rfl

theorem pull_extractPaths_ok (w : World) (fs : List String)
    (h : (pull w fs).2 = Except.ok ()) :
    extractPaths (pull w fs).1 = fs.map (resolvePath (pwdOf w)) := by
  obtain ⟨he, hf⟩ := pull_trace_ok w fs h
  rw [he, extractPaths_append, run_command_extractPaths,
    (pullFiles_ok_paths w (pwdOf w) fs hf).2]
  rfl

theorem pull_putCalls (w : World) (fs : List String) :
    putCalls (pull w fs).1 = [] := by
  rcases hc : run_command w "pwd" true with ⟨t, r⟩
  have ht : putCalls t = [] := by
    have := run_command_putCalls w "pwd" true
    rw [hc] at this
    exact this
  cases r <;> rw [pull, hc]
  · exact ht
  · simp [putCalls_append, ht, (pullFiles_no_cmd w _ fs).2.2]

/-- C1: for every EnvironmentSpec tree, run_env executes phases
depth-first in the fixed order before, push, run, pull, after at every
node (second conjunct: the trace of a node is the concatenation of its
five phase traces in that order), so the flattened sequence of executed
run-phase commands is all commands of the before subtree, then this
node's run commands in listed order, then all commands of the after
subtree (first conjunct). -/
theorem run_env_depth_first_phase_order :
    (∀ (w : World) (s : EnvSpec), (run_env w s).2 = Except.ok () →
      userCmds (run_env w s).1 = flatRunCmds s)
    ∧ (∀ (w : World) (b : Option EnvSpec) (pu ru pl : Option (List String))
        (af : Option EnvSpec),
        (run_env w (EnvSpec.mk b pu ru pl af)).2 = Except.ok () →
        (run_env w (EnvSpec.mk b pu ru pl af)).1 =
          (runOpt w b).1 ++ ((pushPhase w pu).1 ++
            ((runSeq w (ru.getD [])).1 ++ ((pullPhase w pl).1 ++
              (runOpt w af).1)))) :=
  ⟨fun w s h => run_env_flat w s h,
   fun w b pu ru pl af h => (run_env_ok_split w b pu ru pl af h).2.2.2.2.2⟩

/-- Witness for C1: on the nested spec (before runs "a", this level runs
"b", after runs "c") in the all-success world, the flattened executed
command sequence is exactly ["a", "b", "c"]. -/
theorem run_env_depth_first_phase_order_witness :
    (run_env wOk specNested).2 = Except.ok ()
      ∧ userCmds (run_env wOk specNested).1 = ["a", "b", "c"]
      ∧ flatRunCmds specNested = ["a", "b", "c"] :=
  ⟨rfl, by rw [run_env_depth_first_phase_order.1 wOk specNested rfl]; rfl,
   rfl⟩

/-- C2: run_command raises AbnormalExit carrying exactly the remote exit
code iff that code is nonzero (first conjunct; no output is returned
then, and any error it raises is that AbnormalExit, second conjunct), and
the error propagates uncaught through main's try/finally so the process
terminates with that exact code (third conjunct). -/
theorem run_command_abnormal_exit_contract :
    (∀ (w : World) (c : String) (s : Bool),
      (run_command w c s).2 =
          Except.error (MobyError.abnormalExit (w.exec c).2) ↔
        (w.exec c).2 ≠ 0)
    ∧ (∀ (w : World) (c : String) (s : Bool) (e : MobyError),
        (run_command w c s).2 = Except.error e →
        e = MobyError.abnormalExit (w.exec c).2 ∧ (w.exec c).2 ≠ 0)
    ∧ (∀ (w : World) (cfg : Config) (e : MobyError),
        (runEnvList w cfg cfg.envlist).2 = Except.error e →
        (mainRun w cfg).2 = Except.error e) := by
  refine ⟨fun w c s => ?_, fun w c s e h => ?_, fun w cfg e h => h⟩
  · by_cases h0 : (w.exec c).2 = 0
    · rw [run_command_snd_ok w c s h0]
      simp [h0]
    · rw [run_command_snd_error w c s h0]
      simp [h0]
  · by_cases h0 : (w.exec c).2 = 0
    · rw [run_command_snd_ok w c s h0] at h
      exact absurd h (by simp)
    · rw [run_command_snd_error w c s h0] at h
      simp at h
      exact ⟨h.symm, h0⟩

/-- Witness for C2: in the world where "boom" exits with code 2, running
"boom" raises AbnormalExit 2, and a whole main run over environments that
run "boom" terminates with that exact error. -/
theorem run_command_abnormal_exit_contract_witness :
    (run_command wFail "boom" false).2 =
        Except.error (MobyError.abnormalExit 2)
      ∧ (mainRun wFail cfgBoom).2 = Except.error (MobyError.abnormalExit 2) :=
  ⟨(run_command_abnormal_exit_contract.1 wFail "boom" false).mpr
      (by decide),
   run_command_abnormal_exit_contract.2.2 wFail cfgBoom
      (MobyError.abnormalExit 2) (by rfl)⟩

/-- C8: main's try/finally makes an unconditional attempt to stop the
container: the stop events are appended to the trace whether the
environment loop completed or aborted (first and third conjuncts), and
the cleanup suppresses no error, the loop's result passing through
unchanged (second conjunct). -/
theorem main_always_stops_container :
    ∀ (w : World) (cfg : Config),
      (mainRun w cfg).1 = (runEnvList w cfg cfg.envlist).1 ++ stop_container
        ∧ (mainRun w cfg).2 = (runEnvList w cfg cfg.envlist).2
        ∧ Event.stop ∈ (mainRun w cfg).1 :=
  fun w cfg =>
    ⟨rfl, rfl, by simp [mainRun, stop_container]⟩

/-- C9: run_env tolerates a spec with no run key: it behaves exactly as
if the run list were empty (first conjunct), and the empty run loop
executes no command and raises no error (second conjunct), while the
other phases are untouched (they appear identically on both sides of the
first conjunct's equality). -/
theorem run_env_tolerates_missing_run :
    ∀ (w : World) (b : Option EnvSpec) (pu pl : Option (List String))
      (af : Option EnvSpec),
      run_env w (EnvSpec.mk b pu none pl af) =
          run_env w (EnvSpec.mk b pu (some []) pl af)
        ∧ runSeq w [] = ([], Except.ok ()) :=
  fun _ _ _ _ _ => ⟨rfl, rfl⟩

/-- C10: the silent flag changes no behaviour other than logging: for
every world and command, the returned value or raised error is identical
for silent and loud runs, and so is the sequence of docker-level calls
(only log events differ). -/
theorem silent_flag_affects_logging_only :
    ∀ (w : World) (c : String),
      (run_command w c true).2 = (run_command w c false).2
        ∧ actions (run_command w c true).1 =
            actions (run_command w c false).1 := by
  intro w c
  constructor
  · by_cases h0 : (w.exec c).2 = 0
    · rw [run_command_snd_ok w c true h0, run_command_snd_ok w c false h0]
    · rw [run_command_snd_error w c true h0,
        run_command_snd_error w c false h0]
  · rw [run_command_actions, run_command_actions]

/-- C3: once a phase fails, nothing further executes anywhere: a failing
command stops the rest of the current run list (first conjunct); a
failure in the before phase stops every later phase of the node (second
conjunct); a failure in the run phase stops pull and after (third
conjunct); a failing environment stops every subsequent environment in
the list (fourth conjunct).  In each case the whole result is exactly the
trace up to the failure paired with the very same error, so nothing is
caught or wrapped. -/
theorem failure_aborts_rest_of_run :
    (∀ (w : World) (c : String) (cs : List String) (e : MobyError),
      (run_command w c false).2 = Except.error e →
      runSeq w (c :: cs) = ((run_command w c false).1, Except.error e))
    ∧ (∀ (w : World) (b : Option EnvSpec) (pu ru pl : Option (List String))
        (af : Option EnvSpec) (e : MobyError),
        (runOpt w b).2 = Except.error e →
        run_env w (EnvSpec.mk b pu ru pl af) =
          ((runOpt w b).1, Except.error e))
    ∧ (∀ (w : World) (b : Option EnvSpec) (pu ru pl : Option (List String))
        (af : Option EnvSpec) (e : MobyError),
        (runOpt w b).2 = Except.ok () → (pushPhase w pu).2 = Except.ok () →
        (runSeq w (ru.getD [])).2 = Except.error e →
        run_env w (EnvSpec.mk b pu ru pl af) =
          ((runOpt w b).1 ++ ((pushPhase w pu).1 ++
            (runSeq w (ru.getD [])).1), Except.error e))
    ∧ (∀ (w : World) (cfg : Config) (n : String) (ns : List String)
        (e : MobyError),
        (run_env w (cfg.envs n)).2 = Except.error e →
        runEnvList w cfg (n :: ns) =
          ((run_env w (cfg.envs n)).1, Except.error e)) := by
  refine ⟨fun w c cs e h => ?_, fun w b pu ru pl af e h => ?_,
    fun w b pu ru pl af e h1 h2 h3 => ?_, fun w cfg n ns e h => ?_⟩
  · rcases hc : run_command w c false with ⟨t, r⟩
    rw [hc] at h
    simp only at h
    rw [runSeq, hc, h]
  · rw [run_env_unfold, seqRun_of_error _ _ e h]
  · rw [run_env_unfold, seqRun_of_ok _ _ h1, seqRun_of_ok _ _ h2,
      seqRun_of_error _ _ e h3]
  · rw [runEnvList, seqRun_of_error _ _ e h]

/-- Witness for C3: with "boom" exiting 2, the command after "boom" in
the same run list never executes, and the second environment of a list
never executes after the first fails; the AbnormalExit 2 error comes
through unchanged in both cases. -/
theorem failure_aborts_rest_of_run_witness :
    runSeq wFail ["boom", "next"] =
        ((run_command wFail "boom" false).1,
          Except.error (MobyError.abnormalExit 2))
      ∧ runEnvList wFail cfgBoom ["first", "second"] =
          ((run_env wFail (cfgBoom.envs "first")).1,
            Except.error (MobyError.abnormalExit 2)) :=
  ⟨failure_aborts_rest_of_run.1 wFail "boom" ["next"]
      (MobyError.abnormalExit 2) (by rfl),
   failure_aborts_rest_of_run.2.2.2 wFail cfgBoom "first" ["second"]
      (MobyError.abnormalExit 2) (by rfl)⟩

/-- C7: push performs exactly one silent working-directory query and one
archive upload no matter how many paths are listed, and pull performs
exactly one working-directory query per call plus one archive fetch and
one extraction per listed path (the pwd query is the only command either
transfer ever executes). -/
theorem transfer_round_trip_counts :
    ∀ (w : World) (fs : List String),
      ((push w fs).2 = Except.ok () →
        execCmds (push w fs).1 = ["pwd"] ∧ countPut (push w fs).1 = 1)
      ∧ ((pull w fs).2 = Except.ok () →
          execCmds (pull w fs).1 = ["pwd"]
            ∧ countFetch (pull w fs).1 = fs.length
            ∧ countExtract (pull w fs).1 = fs.length) := by
  intro w fs
  constructor
  · intro h
    refine ⟨push_execCmds_ok w fs h, ?_⟩
    rw [countPut, push_putCalls_ok w fs h]
    rfl
  · intro h
    refine ⟨pull_execCmds_ok w fs h, ?_, ?_⟩
    · rw [countFetch, pull_fetchPaths_ok w fs h, List.length_map]
    · rw [countExtract, pull_extractPaths_ok w fs h, List.length_map]

/-- Witness for C7: pushing two paths produces one pwd query and one
upload; pulling two paths produces one pwd query, two fetches and two
extractions. -/
theorem transfer_round_trip_counts_witness :
    ((push wCwd ["x", "y"]).2 = Except.ok ()
      ∧ execCmds (push wCwd ["x", "y"]).1 = ["pwd"]
      ∧ countPut (push wCwd ["x", "y"]).1 = 1)
    ∧ ((pull wCwd ["x", "y"]).2 = Except.ok ()
      ∧ execCmds (pull wCwd ["x", "y"]).1 = ["pwd"]
      ∧ countFetch (pull wCwd ["x", "y"]).1 = 2
      ∧ countExtract (pull wCwd ["x", "y"]).1 = 2) := by
  have h := transfer_round_trip_counts wCwd ["x", "y"]
  refine ⟨⟨rfl, (h.1 rfl).1, (h.1 rfl).2⟩,
    ⟨rfl, (h.2 rfl).1, (h.2 rfl).2.1, (h.2 rfl).2.2⟩⟩

/-- Counterexample for C4: the claim says only trailing whitespace is
removed and leading whitespace preserved, but the code calls Python
str.strip, which removes both.  With a single streamed chunk " a" and
exit status 0, the claim predicts the returned output " a" (what
trailing-only stripping of the concatenation gives), yet run_command
returns "a". -/
theorem run_command_strips_leading_whitespace_too :
    (run_command wLead "c" true).2 = Except.ok "a"
      ∧ specStripTrailing (String.join (wLead.exec "c").1) = " a"
      ∧ ("a" : String) ≠ " a" :=
  ⟨rfl, rfl, by decide⟩

/-- C4 amended: when the remote exit status is zero, run_command returns
the concatenation of all decoded streamed chunks with whitespace stripped
from BOTH ends (Python str.strip), i.e. leading whitespace is removed as
well: stripping equals trailing-only stripping composed with leading-only
stripping. -/
theorem run_command_output_stripped_both_ends :
    (∀ (w : World) (c : String) (s : Bool), (w.exec c).2 = 0 →
      (run_command w c s).2 =
        Except.ok (pyStrip (String.join (w.exec c).1)))
    ∧ (∀ str : String,
        pyStrip str = specStripTrailing (specStripLeading str)) :=
  ⟨fun w c s h => run_command_snd_ok w c s h, fun _ => rfl⟩

/-- Witness for the amended C4: on the chunk list [" a"] with exit 0 the
returned output is the both-ends-stripped concatenation "a". -/
theorem run_command_output_stripped_both_ends_witness :
    (wLead.exec "c").2 = 0
      ∧ (run_command wLead "c" true).2 =
          Except.ok (pyStrip (String.join (wLead.exec "c").1))
      ∧ pyStrip (String.join (wLead.exec "c").1) = "a" :=
  ⟨rfl, run_command_output_stripped_both_ends.1 wLead "c" true rfl, rfl⟩

/-- Counterexample for C5: the claim says the separator resolution
rule applies to push as well as pull, but push never resolves its paths:
with remote working directory "/cwd" and the relative path "rel", the
claimed resolution is "/cwd/rel", yet the one upload push performs
carries the entry "rel" exactly as given (the path "/cwd/rel" appears
nowhere in the push trace). -/
theorem push_ignores_resolution_rule :
    push wCwd ["rel"] =
        ([Event.exec "pwd" true, Event.put "/cwd" ["rel"]], Except.ok ())
      ∧ resolvePath (pwdOf wCwd) "rel" = "/cwd/rel"
      ∧ putCalls (push wCwd ["rel"]).1 = [("/cwd", ["rel"])]
      ∧ ("rel" : String) ≠ "/cwd/rel" :=
  ⟨rfl, rfl, rfl, by decide⟩

/-- C5 amended: the resolution rule (absolute paths unchanged, relative
paths joined to the remote working directory with a single separator)
applies to pull only: pull fetches exactly the resolved paths, while push
uploads one archive holding every path exactly as listed, the remote
working directory serving only as the upload destination. -/
theorem path_resolution_applies_to_pull_only :
    ∀ (w : World) (fs : List String),
      ((pull w fs).2 = Except.ok () →
        fetchPaths (pull w fs).1 = fs.map (resolvePath (pwdOf w)))
      ∧ ((push w fs).2 = Except.ok () →
          putCalls (push w fs).1 = [(pwdOf w, fs)]) :=
  fun w fs =>
    ⟨fun h => pull_fetchPaths_ok w fs h, fun h => push_putCalls_ok w fs h⟩

/-- Witness for the amended C5: with working directory "/cwd", pulling
["rel", "/abs"] fetches "/cwd/rel" then "/abs" (relative joined, absolute
unchanged), and pushing ["x"] uploads the entry "x" to "/cwd". -/
theorem path_resolution_applies_to_pull_only_witness :
    (pull wCwd ["rel", "/abs"]).2 = Except.ok ()
      ∧ fetchPaths (pull wCwd ["rel", "/abs"]).1 = ["/cwd/rel", "/abs"]
      ∧ (push wCwd ["x"]).2 = Except.ok ()
      ∧ putCalls (push wCwd ["x"]).1 = [("/cwd", ["x"])] :=
  ⟨rfl,
   by rw [(path_resolution_applies_to_pull_only wCwd ["rel", "/abs"]).1 rfl]
      rfl,
   rfl,
   by rw [(path_resolution_applies_to_pull_only wCwd ["x"]).2 rfl]
      rfl⟩

/-- Counterexample for C6: the claim says push is invoked only when
spec.push is present AND non-empty, but run_env tests only key presence:
on a spec whose push key is present with an empty list, push still runs,
performing its silent pwd query and an upload of an empty archive. -/
theorem empty_push_list_still_invokes_push :
    run_env wCwd (EnvSpec.mk none (some []) none none none) =
        ([Event.exec "pwd" true, Event.put "/cwd" []], Except.ok ())
      ∧ countPut
          (run_env wCwd (EnvSpec.mk none (some []) none none none)).1 = 1 :=
  ⟨rfl, rfl⟩

/-- C6 amended: push is invoked exactly when spec.push is PRESENT
(regardless of emptiness) and pull exactly when spec.pull is present; an
absent field skips the phase entirely.  On a successful single node the
upload count is 1 iff the push key is present, and the executed commands
are the push pwd query iff push is present, then the run list, then the
pull pwd query iff pull is present. -/
theorem phases_invoked_iff_key_present :
    ∀ (w : World) (pu ru pl : Option (List String)),
      (run_env w (EnvSpec.mk none pu ru pl none)).2 = Except.ok () →
      countPut (run_env w (EnvSpec.mk none pu ru pl none)).1 =
          (if pu.isSome then 1 else 0)
        ∧ execCmds (run_env w (EnvSpec.mk none pu ru pl none)).1 =
            ((if pu.isSome then ["pwd"] else []) ++
              (ru.getD [] ++ (if pl.isSome then ["pwd"] else []))) := by
  intro w pu ru pl h
  obtain ⟨h1, h2, h3, h4, h5, e⟩ := run_env_ok_split w none pu ru pl none h
  rw [e]
  have hpuPut : putCalls (pushPhase w pu).1 =
      (if pu.isSome then [(pwdOf w, pu.getD [])] else []) := by
    cases pu with
    | none => rfl
    | some fs => simp [pushPhase, push_putCalls_ok w fs h2]
  have hpuExec : execCmds (pushPhase w pu).1 =
      (if pu.isSome then ["pwd"] else []) := by
    cases pu with
    | none => rfl
    | some fs => simp [pushPhase, push_execCmds_ok w fs h2]
  have hplPut : putCalls (pullPhase w pl).1 = [] := by
    cases pl with
    | none => rfl
    | some fs => exact pull_putCalls w fs
  have hplExec : execCmds (pullPhase w pl).1 =
      (if pl.isSome then ["pwd"] else []) := by
    cases pl with
    | none => rfl
    | some fs => simp [pullPhase, pull_execCmds_ok w fs h4]
  constructor
  · rw [countPut, putCalls_append, putCalls_append, putCalls_append,
      putCalls_append, hpuPut, hplPut, (runSeq_no_transfer w _).2.2]
    cases pu <;> simp [runOpt, putCalls]
  · rw [execCmds_append, execCmds_append, execCmds_append, execCmds_append,
      hpuExec, hplExec, runSeq_execCmds_ok w _ h3]
    simp [runOpt, execCmds]

/-- Witness for the amended C6: a node with push present-but-empty, one
run command and no pull key performs exactly one upload, and its executed
commands are the push pwd query followed by the run command. -/
theorem phases_invoked_iff_key_present_witness :
    (run_env wCwd (EnvSpec.mk none (some []) (some ["go"]) none none)).2 =
        Except.ok ()
      ∧ countPut
          (run_env wCwd
            (EnvSpec.mk none (some []) (some ["go"]) none none)).1 = 1
      ∧ execCmds
          (run_env wCwd
            (EnvSpec.mk none (some []) (some ["go"]) none none)).1 =
          ["pwd", "go"] := by
  have h := phases_invoked_iff_key_present wCwd (some []) (some ["go"]) none
    rfl
  refine ⟨rfl, ?_, ?_⟩
  · rw [h.1]
    rfl
  · rw [h.2]
    rfl

end Moby
